import Mathlib

/-
Verification of the drain-aware threshold-blocking byte-pipe layer:
a shallow embedding of src/RageUtil_CircularBuffer.h (class CircBuf) and
src/Ensc351x-myio/myIO.cpp (class socketDrainClass and the myRead/myWrite/
myTcdrain/myClose registry functions), together with theorems about the
properties the specification states for them.

Modelling conventions:
- the C array backing the ring buffer is modelled as a function from indices
  to byte values (memcpy / memset become pointwise overwrites on an index
  interval); bytes are Nat values;
- C unsigned 32-bit subtraction is modelled by the helper usub, with the
  explicit wrap modulo 2^32 the hardware performs;
- C int values (the buffered counter, descriptor numbers, the n / min /
  time / timeout read parameters) are modelled as Int;
- the blocking branch of socketDrainClass::reading is split at the
  condition-variable wait: the part before the wait produces a "blocked"
  state (outcome ReadOutcome.blocked), and readWake is the code executed
  after cvRead.wait returns; condition-variable notifications are modelled
  as Boolean outputs of each operation.
-/

/-- Unsigned 32-bit subtraction as C computes it: (a - b) wrapped modulo 2^32.
Used where the source subtracts values of C type unsigned. -/
def usub (a b : Nat) : Nat := (a + 2 ^ 32 - b) % 2 ^ 32

/-- Model of a C byte array: a total function from indices to byte values.
Only indices below the tracked size are ever meaningful. -/
def memcpyF (f : Nat → Nat) (pos : Nat) (data : List Nat) : Nat → Nat :=
  fun j => if pos ≤ j ∧ j < pos + data.length then data.getD (j - pos) 0 else f j

/-- Model of memset(p + pos, v, len) on an array modelled as a function. -/
def memsetF (f : Nat → Nat) (pos len v : Nat) : Nat → Nat :=
  fun j => if pos ≤ j ∧ j < pos + len then v else f j

/-- State of the CircBuf template (RageUtil_CircularBuffer.h) at element type
char: backing array, its allocated size, the block size, and the two cursors.
The atomic loads/stores order concurrent access in C; a state snapshot carries
no ordering information, so the cursors are plain fields here. -/
structure CircBuf where
  buf : Nat → Nat
  size : Nat
  m_iBlockSize : Nat
  read_pos : Nat
  write_pos : Nat

/-- CircBuf::reserve(n, iBlockSize) followed from the default constructor:
clear() zeroes both cursors, then size is set to n+1 rounded up to the block
size (stored in a C unsigned, hence the wrap), and a fresh array is allocated.
The fresh array's contents are never read before being written; they are
modelled as zero. -/
def CircBuf.reserve (n iBlockSize : Nat) : CircBuf :=
  { buf := fun _ => 0
    size := if n ≠ 0 then ((n + 1 + iBlockSize - 1) / iBlockSize * iBlockSize) % 2 ^ 32 else 0
    m_iBlockSize := iBlockSize
    read_pos := 0
    write_pos := 0 }

/-- CircBuf::num_readable. -/
def CircBuf.num_readable (cb : CircBuf) : Nat :=
  let rpos := cb.read_pos
  let wpos := cb.write_pos
  if rpos < wpos then wpos - rpos
  else if rpos > wpos then cb.size - (rpos - wpos)
  else 0

/-- CircBuf::num_writable; the final subtraction of m_iBlockSize is done on a
C unsigned value. -/
def CircBuf.num_writable (cb : CircBuf) : Nat :=
  let rpos := cb.read_pos
  let wpos := cb.write_pos
  let ret := if rpos < wpos then cb.size - (wpos - rpos)
    else if rpos > wpos then rpos - wpos
    else cb.size
  usub ret cb.m_iBlockSize

/-- CircBuf::capacity. -/
def CircBuf.capacity (cb : CircBuf) : Nat := cb.size

/-- CircBuf::clear. -/
def CircBuf.clear (cb : CircBuf) : CircBuf :=
  { cb with read_pos := 0, write_pos := 0 }

/-- CircBuf::advance_write_pointer. -/
def CircBuf.advance_write_pointer (cb : CircBuf) (n : Nat) : CircBuf :=
  { cb with write_pos := (cb.write_pos + n) % cb.size }

/-- CircBuf::advance_read_pointer. -/
def CircBuf.advance_read_pointer (cb : CircBuf) (n : Nat) : CircBuf :=
  { cb with read_pos := (cb.read_pos + n) % cb.size }

/-- The two free-region sizes computed by CircBuf::get_write_pointers (the
region base positions are write_pos and 0). The blocksize adjustments are
performed on C unsigned values. -/
def CircBuf.get_write_sizes (cb : CircBuf) : Nat × Nat :=
  let rpos := cb.read_pos
  let wpos := cb.write_pos
  if rpos ≤ wpos then
    let s0 := cb.size - wpos
    let s1 := rpos
    if s1 ≠ 0 then (s0, usub s1 cb.m_iBlockSize) else (usub s0 cb.m_iBlockSize, s1)
  else
    (usub (rpos - wpos) cb.m_iBlockSize, 0)

/-- The two data-region sizes computed by CircBuf::get_read_pointers (the
region base positions are read_pos and 0). -/
def CircBuf.get_read_sizes (cb : CircBuf) : Nat × Nat :=
  let rpos := cb.read_pos
  let wpos := cb.write_pos
  if rpos < wpos then (wpos - rpos, 0)
  else if rpos > wpos then (cb.size - rpos, wpos)
  else (0, 0)

/-- CircBuf::write: cap the request at the free space, copy a first chunk at
write_pos and, if the data wraps, a second chunk at the array base, then
advance the write cursor.  Returns the element count actually written. -/
def CircBuf.write (cb : CircBuf) (data : List Nat) : Nat × CircBuf :=
  let s0 := cb.get_write_sizes.1
  let s1 := cb.get_write_sizes.2
  let max_write_size := s0 + s1
  let buffer_size := min data.length max_write_size
  let from_first := min buffer_size s0
  let buf1 := memcpyF cb.buf cb.write_pos (data.take from_first)
  let buf2 := if buffer_size > s0 then
      memcpyF buf1 0 ((data.drop from_first).take (buffer_size - s0))
    else buf1
  (buffer_size, { cb with buf := buf2, write_pos := (cb.write_pos + buffer_size) % cb.size })

/-- CircBuf::read: cap the request at the readable count, copy out a first
chunk at read_pos and, if the data wraps, a second chunk from the array base,
overwrite the vacated cells with the 0xFF sentinel, then advance the read
cursor.  Returns the list of elements read (whose length is the C return
value). -/
def CircBuf.read (cb : CircBuf) (bsize : Nat) : List Nat × CircBuf :=
  let s0 := cb.get_read_sizes.1
  let s1 := cb.get_read_sizes.2
  let max_read_size := s0 + s1
  let buffer_size := min bsize max_read_size
  let from_first := min buffer_size s0
  let out := (List.range from_first).map (fun t => cb.buf (cb.read_pos + t)) ++
    (if buffer_size > s0 then (List.range (buffer_size - s0)).map (fun t => cb.buf t) else [])
  let buf1 := memsetF cb.buf cb.read_pos from_first 255
  let buf2 := if buffer_size > s0 then memsetF buf1 0 (buffer_size - s0) 255 else buf1
  (out, { cb with buf := buf2, read_pos := (cb.read_pos + buffer_size) % cb.size })

/-- Validity of a CircBuf state: the cursor invariants stated in the source
(read_pos < size, write_pos < size), the block size 1 used by every
construction in this repository, and the unsigned range of size. -/
def CircBuf.V (cb : CircBuf) : Prop :=
  cb.read_pos < cb.size ∧ cb.write_pos < cb.size ∧ cb.m_iBlockSize = 1 ∧ cb.size < 2 ^ 32

instance (cb : CircBuf) : Decidable cb.V := by
  unfold CircBuf.V
  infer_instance

/-- The sequence of readable elements, oldest first: the abstraction of the
ring-buffer state as a byte queue. -/
def CircBuf.readableList (cb : CircBuf) : List Nat :=
  (List.range cb.num_readable).map (fun i => cb.buf ((cb.read_pos + i) % cb.size))

/-- State of a socketDrainClass object (myIO.cpp): the signed buffered
counter, the ring buffer, and the paired descriptor number (-1 once the peer
is closed).  The mutex and the two condition variables order threads in C;
notifications are modelled as Boolean outputs of the operations below. -/
structure socketDrainClass where
  buffered : Int
  buffer : CircBuf
  pair : Int

/-- Constructor socketDrainClass(pairInit): zero backlog and buffer.reserve(300)
(note constant of 300 in the source; the default block size is 1). -/
def mkSocketDrainClass (pairInit : Int) : socketDrainClass :=
  { buffered := 0, buffer := CircBuf.reserve 300 1, pair := pairInit }

/-- Conversion of a C int to the unsigned buffer_size parameter of
CircBuf::read, as the call buffer.read((char *) buf, n) performs it. -/
def intToUnsigned (n : Int) : Nat := (n % 2 ^ 32).toNat

/-- socketDrainClass::writing: append to the ring buffer, raise buffered by
the count written, and notify the read-waiter when buffered is now >= 0.
Returns (written, new state, whether cvRead was notified). -/
def writing (s : socketDrainClass) (data : List Nat) : Int × socketDrainClass × Bool :=
  let written : Int := (s.buffer.write data).1
  let buffered' := s.buffered + written
  (written, { s with buffer := (s.buffer.write data).2, buffered := buffered' },
    decide (0 ≤ buffered'))

/-- Outcome of socketDrainClass::reading.  done carries the return value, the
bytes delivered, the state afterwards and whether cvDrain was notified;
blocked is the state left behind when the calling thread enters cvRead.wait
(cvDrain has just been notified unconditionally); the two fatal outcomes are
the exit(EXIT_FAILURE) calls. -/
inductive ReadOutcome where
  | done (bytesRead : Int) (out : List Nat) (s : socketDrainClass) (notifiedDrain : Bool)
  | fatalMultiRead
  | fatalTimeout
  | blocked (s : socketDrainClass)

/-- Whether a reading outcome is one of the two process-terminating cases. -/
def ReadOutcome.isFatal : ReadOutcome → Bool
  | .fatalMultiRead => true
  | .fatalTimeout => true
  | _ => false

/-- socketDrainClass::reading up to the cvRead.wait call.  The immediate
branch runs when buffered >= min or the peer is closed; otherwise the two
fatal-misuse checks run and, if they pass, the claim buffered -= min is
recorded, cvDrain is notified unconditionally, and the caller blocks. -/
def reading (s : socketDrainClass) (n mn time timeout : Int) : ReadOutcome :=
  if mn ≤ s.buffered ∨ s.pair = -1 then
    let out := (s.buffer.read (intToUnsigned n)).1
    let bytesRead : Int := out.length
    if 0 < bytesRead then
      ReadOutcome.done bytesRead out
        { s with buffer := (s.buffer.read (intToUnsigned n)).2
                 buffered := s.buffered - bytesRead }
        (decide (s.buffered - bytesRead = 0))
    else
      ReadOutcome.done bytesRead out
        { s with buffer := (s.buffer.read (intToUnsigned n)).2 } false
  else if s.buffered < 0 then ReadOutcome.fatalMultiRead
  else if time ≠ 0 ∨ timeout ≠ 0 then ReadOutcome.fatalTimeout
  else ReadOutcome.blocked { s with buffered := s.buffered - mn }

/-- The predicate of the cvRead.wait in socketDrainClass::reading: the blocked
reader resumes when buffered >= 0 or the peer has been closed. -/
def readWakeCondition (s : socketDrainClass) : Prop := 0 ≤ s.buffered ∨ s.pair = -1

/-- Code executed by socketDrainClass::reading after cvRead.wait returns:
read from the buffer and perform buffered -= (bytesRead - min), in C int
arithmetic.  Returns (bytesRead, bytes, new state). -/
def readWake (s : socketDrainClass) (n mn : Int) : Int × List Nat × socketDrainClass :=
  let out := (s.buffer.read (intToUnsigned n)).1
  let bytesRead : Int := out.length
  (bytesRead, out,
    { s with buffer := (s.buffer.read (intToUnsigned n)).2
             buffered := s.buffered - (bytesRead - mn) })

/-- The wait predicate of socketDrainClass::waitForDraining: the drain caller
is allowed past the wait exactly when buffered <= 0. -/
def drainCondition (s : socketDrainClass) : Prop := s.buffered ≤ 0

/-- socketDrainClass::waitForDraining enters cvDrain.wait if and only if
buffered > 0 at entry; it modifies no endpoint state and returns 0. -/
def waitForDrainingBlocks (s : socketDrainClass) : Bool := decide (0 < s.buffered)

instance (s : socketDrainClass) : Decidable (drainCondition s) := by
  unfold drainCondition
  infer_instance

instance (s : socketDrainClass) : Decidable (readWakeCondition s) := by
  unfold readWakeCondition
  infer_instance

/-- Notifications and updates performed by socketDrainClass::finishClosing
when the OS-level close succeeded: all fields of the record below. -/
structure CloseEffect where
  peer : Option socketDrainClass
  peerReadNotified : Bool
  peerDrainNotified : Bool
  ownDrainNotified : Bool
  ownReadNotified : Bool

/-- socketDrainClass::finishClosing with a successful underlying close: when
the peer object still exists, mark it closed and wake its blocked reader (if
its buffered < 0) or its drain-waiters (else, if its buffered > 0); then
discard this endpoint's own outstanding counter, waking the corresponding
waiters, before the object is deleted and its registry slot nulled. -/
def finishClosing (s : socketDrainClass) (des_pair : Option socketDrainClass) : CloseEffect :=
  match des_pair with
  | none =>
    { peer := none, peerReadNotified := false, peerDrainNotified := false
      ownDrainNotified := false, ownReadNotified := false }
  | some p =>
    { peer := some { p with pair := -1 }
      peerReadNotified := decide (p.buffered < 0)
      peerDrainNotified := decide (¬ p.buffered < 0 ∧ 0 < p.buffered)
      ownDrainNotified := decide (0 < s.buffered)
      ownReadNotified := decide (¬ 0 < s.buffered ∧ s.buffered < 0) }

/-- The errno value myWrite sets when the peer is closed. -/
def EPIPE : Int := 32

/-- Outcome of myWrite.  managed covers descriptors created by mySocketpair:
the return value, the errno set (if any), the registry vector afterwards, and
whether the peer's cvRead was notified.  passthrough models delegation to the
native write; undefinedPeer marks the null-peer dereference that the pairing
invariant keeps unreachable. -/
inductive WriteResult where
  | managed (ret : Int) (errnoSet : Option Int)
      (v : List (Option socketDrainClass)) (notifiedRead : Bool)
  | passthrough
  | undefinedPeer

/-- myWrite: look up the descriptor in desInfoVect; pass through descriptors
not from mySocketpair; fail with -1/EPIPE if the peer is closed; otherwise
append to the peer's endpoint state with socketDrainClass::writing. -/
def myWrite (v : List (Option socketDrainClass)) (des : Nat) (data : List Nat) :
    WriteResult :=
  match v.getD des none with
  | none => WriteResult.passthrough
  | some desInfoP =>
    if desInfoP.pair = -1 then WriteResult.managed (-1) (some EPIPE) v false
    else
      match v.getD desInfoP.pair.toNat none with
      | none => WriteResult.undefinedPeer
      | some peer =>
        WriteResult.managed (writing peer data).1 none
          (v.set desInfoP.pair.toNat (some (writing peer data).2.1))
          (writing peer data).2.2

/-- One endpoint together with the ghost threshold of the outstanding blocked
read claim (none when no reader is blocked in reading): the bookkeeping
needed to state the backlog invariant. -/
structure EndpointGhost where
  sdc : socketDrainClass
  claimMin : Option Int

/-- The operations that can touch one endpoint's synchronization state, as a
step relation: a write arriving from the peer side, an immediate read, a
threshold read entering its wait (registering a claim), the wake-up after the
wait, and the peer being closed.  Read steps require no claim outstanding
(resp. exactly the recorded claim), which is the single-reader-role
discipline the layer documents. -/
inductive EpStep : EndpointGhost → EndpointGhost → Prop where
  | write (e : EndpointGhost) (data : List Nat) :
      EpStep e ⟨(writing e.sdc data).2.1, e.claimMin⟩
  | readImmediate (e : EndpointGhost) (n mn time timeout bytesRead : Int)
      (out : List Nat) (s' : socketDrainClass) (nd : Bool)
      (hclaim : e.claimMin = none)
      (hdone : reading e.sdc n mn time timeout = ReadOutcome.done bytesRead out s' nd) :
      EpStep e ⟨s', none⟩
  | enterWait (e : EndpointGhost) (n mn time timeout : Int) (s' : socketDrainClass)
      (hclaim : e.claimMin = none)
      (hblocked : reading e.sdc n mn time timeout = ReadOutcome.blocked s') :
      EpStep e ⟨s', some mn⟩
  | wake (e : EndpointGhost) (n mn : Int)
      (hclaim : e.claimMin = some mn)
      (hcond : readWakeCondition e.sdc) :
      EpStep e ⟨(readWake e.sdc n mn).2.2, none⟩
  | peerClosed (e : EndpointGhost) :
      EpStep e ⟨{ e.sdc with pair := -1 }, e.claimMin⟩

/-- Endpoint states reachable from a freshly constructed endpoint through any
interleaving of the operations. -/
inductive EpReach : EndpointGhost → Prop where
  | init (pairInit : Int) : EpReach ⟨mkSocketDrainClass pairInit, none⟩
  | step (e e' : EndpointGhost) (h : EpReach e) (hs : EpStep e e') : EpReach e'

/-- The backlog bookkeeping invariant: with no claim outstanding the counter
is exactly the readable byte count (hence nonnegative); with a claim of
threshold m outstanding the buffer holds buffered + m readable bytes. -/
def EpInv (e : EndpointGhost) : Prop :=
  e.sdc.buffer.V ∧
  (e.claimMin = none → 0 ≤ e.sdc.buffered ∧
    e.sdc.buffered = (e.sdc.buffer.num_readable : Int)) ∧
  (∀ m : Int, e.claimMin = some m →
    e.sdc.buffered + m = (e.sdc.buffer.num_readable : Int))

/-- Ring-buffer states reachable from reserve(n) (with the default block
size 1, the one used by every construction in this repository) through any
sequence of write, read and cursor-advance operations. -/
inductive CBReach (n : Nat) : CircBuf → Prop where
  | init : CBReach n (CircBuf.reserve n 1)
  | write (cb : CircBuf) (data : List Nat) (h : CBReach n cb) :
      CBReach n (cb.write data).2
  | read (cb : CircBuf) (bs0 : Nat) (h : CBReach n cb) :
      CBReach n (cb.read bs0).2
  | advanceWrite (cb : CircBuf) (k : Nat) (h : CBReach n cb) :
      CBReach n (cb.advance_write_pointer k)
  | advanceRead (cb : CircBuf) (k : Nat) (h : CBReach n cb) :
      CBReach n (cb.advance_read_pointer k)

/-- Concrete scenario state: endpoint B after its peer wrote 3 bytes. -/
def c4s1 : socketDrainClass := (writing (mkSocketDrainClass 0) [1, 1, 1]).2.1

/-- Concrete scenario state: the same endpoint after a threshold read with
min = 10 registered its claim and blocked (3 - 10 = -7). -/
def c4s2 : socketDrainClass := { c4s1 with buffered := c4s1.buffered - 10 }

/-- Concrete scenario state: 7 further bytes arrive while the reader is still
blocked; the backlog returns to 0 with the claim still outstanding. -/
def c4s3 : socketDrainClass := (writing c4s2 [2, 2, 2, 2, 2, 2, 2]).2.1

/-- When no underflow occurs, unsigned subtraction agrees with Nat subtraction. -/
theorem usub_eq (a b : Nat) (hb : b ≤ a) (ha : a < 2 ^ 32) : usub a b = a - b := by
  unfold usub
  omega

/-- Case split for a remainder whose dividend is below twice the modulus; every
modulus taken in the ring-buffer code is of this shape. -/
theorem mod_two_cases (x n : Nat) (h : x < 2 * n) :
    x % n = if x < n then x else x - n := by
  split
  case isTrue h2 => exact Nat.mod_eq_of_lt h2
  case isFalse h2 =>
    have h3 : n ≤ x := Nat.le_of_not_lt h2
    rw [Nat.mod_eq_sub_mod h3]
    exact Nat.mod_eq_of_lt (by omega)

theorem num_readable_eq_mod (cb : CircBuf) (h : cb.V) :
    cb.num_readable = (cb.write_pos + cb.size - cb.read_pos) % cb.size := by
  obtain ⟨hr, hw, hb, hn⟩ := h
  simp only [CircBuf.num_readable]
  rw [mod_two_cases _ _ (by omega)]
  split_ifs <;> omega

theorem num_writable_eq (cb : CircBuf) (h : cb.V) :
    cb.num_writable = cb.size - 1 - cb.num_readable := by
  obtain ⟨hr, hw, hb, hn⟩ := h
  simp only [CircBuf.num_writable, CircBuf.num_readable, hb, usub]
  split_ifs <;> omega

/-- Core arithmetic identity behind the spec's capacity bound. -/
theorem readable_add_writable (cb : CircBuf) (h : cb.V) :
    cb.num_readable + cb.num_writable = cb.size - 1 := by
  have h2 := num_writable_eq cb h
  obtain ⟨hr, hw, hb, hn⟩ := h
  have h3 : cb.num_readable ≤ cb.size - 1 := by
    simp only [CircBuf.num_readable]
    split_ifs <;> omega
  omega

theorem write_sizes_sum (cb : CircBuf) (h : cb.V) :
    cb.get_write_sizes.1 + cb.get_write_sizes.2 = cb.num_writable := by
  obtain ⟨hr, hw, hb, hn⟩ := h
  simp only [CircBuf.get_write_sizes, CircBuf.num_writable, hb, usub]
  split_ifs <;> simp only <;> omega

theorem read_sizes_sum (cb : CircBuf) (h : cb.V) :
    cb.get_read_sizes.1 + cb.get_read_sizes.2 = cb.num_readable := by
  obtain ⟨hr, hw, hb, hn⟩ := h
  simp only [CircBuf.get_read_sizes, CircBuf.num_readable]
  split_ifs <;> simp only <;> omega

theorem getD_take_of_lt (data : List Nat) (m i : Nat) (h : i < m) :
    (data.take m).getD i 0 = data.getD i 0 := by
  simp [List.getD, List.getElem?_take, h]

theorem getD_drop_add (data : List Nat) (m i : Nat) :
    (data.drop m).getD i 0 = data.getD (m + i) 0 := by
  simp [List.getD, List.getElem?_drop]

/-- Effect of the single-chunk memcpy performed by CircBuf::write when the
data does not wrap: cell j receives the data byte whose offset is the ring
distance from write_pos to j, when that distance is below the written count. -/
theorem cell_nowrap (f : Nat → Nat) (data : List Nat) (w n bs j : Nat)
    (hw : w < n) (hj : j < n) (hwb : w + bs ≤ n) (hlen : bs ≤ data.length) :
    memcpyF f w (data.take bs) j =
      if (j + n - w) % n < bs then data.getD ((j + n - w) % n) 0 else f j := by
  unfold memcpyF
  rw [mod_two_cases (j + n - w) n (by omega)]
  have hlt : (data.take bs).length = bs := by
    rw [List.length_take]
    omega
  rw [hlt]
  split_ifs <;>
    first
      | rfl
      | omega
      | (rw [getD_take_of_lt _ _ _ (by omega)]; congr 1; omega)

/-- Effect of the two memcpys performed by CircBuf::write when the data wraps
past the end of the array. -/
theorem cell_wrap (f : Nat → Nat) (data : List Nat) (w n bs j : Nat)
    (hw : w < n) (hj : j < n) (hs0 : n - w < bs) (hlen : bs ≤ data.length)
    (hbn : bs < n) :
    memcpyF (memcpyF f w (data.take (n - w))) 0
        ((data.drop (n - w)).take (bs - (n - w))) j =
      if (j + n - w) % n < bs then data.getD ((j + n - w) % n) 0 else f j := by
  unfold memcpyF
  rw [mod_two_cases (j + n - w) n (by omega)]
  have hl2 : ((data.drop (n - w)).take (bs - (n - w))).length = bs - (n - w) := by
    rw [List.length_take, List.length_drop]
    omega
  have hl1 : (data.take (n - w)).length = n - w := by
    rw [List.length_take]
    omega
  rw [hl1, hl2]
  split_ifs <;>
    first
      | rfl
      | omega
      | (rw [getD_take_of_lt _ _ _ (by omega), getD_drop_add]; congr 1; omega)
      | (rw [getD_take_of_lt _ _ _ (by omega)]; congr 1; omega)

/-- Effect of the single-chunk memset performed by CircBuf::read. -/
theorem set_cell_nowrap (f : Nat → Nat) (v r n len j : Nat)
    (hr : r < n) (hj : j < n) (hrb : r + len ≤ n) :
    memsetF f r len v j = if (j + n - r) % n < len then v else f j := by
  unfold memsetF
  rw [mod_two_cases (j + n - r) n (by omega)]
  split_ifs <;> first | rfl | omega

/-- Effect of the two memsets performed by CircBuf::read when the vacated data
wraps past the end of the array. -/
theorem set_cell_wrap (f : Nat → Nat) (v r n bs j : Nat)
    (hr : r < n) (hj : j < n) (hs0 : n - r < bs) (hbn : bs < n) :
    memsetF (memsetF f r (n - r) v) 0 (bs - (n - r)) v j =
      if (j + n - r) % n < bs then v else f j := by
  unfold memsetF
  rw [mod_two_cases (j + n - r) n (by omega)]
  split_ifs <;> first | rfl | omega

theorem gws_cases (cb : CircBuf) (h : cb.V) :
    (cb.get_write_sizes = (cb.size - cb.write_pos, cb.read_pos - 1) ∧
      cb.read_pos ≠ 0 ∧ cb.read_pos ≤ cb.write_pos) ∨
    (cb.get_write_sizes = (cb.size - cb.write_pos - 1, 0) ∧ cb.read_pos = 0) ∨
    (cb.get_write_sizes = (cb.read_pos - cb.write_pos - 1, 0) ∧
      cb.write_pos < cb.read_pos) := by
  obtain ⟨hr, hw, hb, hn⟩ := h
  simp only [CircBuf.get_write_sizes, hb]
  split_ifs with h1 h2
  · left
    rw [usub_eq _ _ (by omega) (by omega)]
    exact ⟨rfl, h2, h1⟩
  · right; left
    rw [usub_eq _ _ (by omega) (by omega)]
    have h0 : cb.read_pos = 0 := by omega
    rw [h0]
    exact ⟨rfl, rfl⟩
  · right; right
    rw [usub_eq _ _ (by omega) (by omega)]
    exact ⟨rfl, by omega⟩

theorem write_count (cb : CircBuf) (data : List Nat) (h : cb.V) :
    (cb.write data).1 = min data.length cb.num_writable := by
  simp only [CircBuf.write]
  rw [write_sizes_sum cb h]

theorem write_read_pos (cb : CircBuf) (data : List Nat) :
    (cb.write data).2.read_pos = cb.read_pos := rfl

theorem write_size (cb : CircBuf) (data : List Nat) :
    (cb.write data).2.size = cb.size := rfl

theorem write_blocksize (cb : CircBuf) (data : List Nat) :
    (cb.write data).2.m_iBlockSize = cb.m_iBlockSize := rfl

theorem write_write_pos (cb : CircBuf) (data : List Nat) :
    (cb.write data).2.write_pos = (cb.write_pos + (cb.write data).1) % cb.size := rfl

theorem write_V (cb : CircBuf) (data : List Nat) (h : cb.V) : (cb.write data).2.V := by
  obtain ⟨hr, hw, hb, hn⟩ := h
  refine ⟨?_, ?_, hb, hn⟩
  · rw [write_read_pos, write_size]; exact hr
  · rw [write_write_pos, write_size]
    exact Nat.mod_lt _ (by omega)

/-- Pointwise effect of CircBuf::write on the backing array: cells at ring
distance below the written count from write_pos receive the corresponding
data byte; all other cells are untouched. -/
theorem write_cell (cb : CircBuf) (data : List Nat) (h : cb.V) (j : Nat)
    (hj : j < cb.size) :
    (cb.write data).2.buf j =
      if (j + cb.size - cb.write_pos) % cb.size < (cb.write data).1 then
        data.getD ((j + cb.size - cb.write_pos) % cb.size) 0
      else cb.buf j := by
  have hcount := write_count cb data h
  have hWle : min data.length cb.num_writable ≤ cb.num_writable := min_le_right _ _
  have hWd : min data.length cb.num_writable ≤ data.length := min_le_left _ _
  have hwr := num_writable_eq cb h
  have hk : cb.num_readable ≤ cb.size - 1 := by
    obtain ⟨hr, hw, hb, hn⟩ := h
    simp only [CircBuf.num_readable]
    split_ifs <;> omega
  rw [hcount]
  obtain ⟨hr, hw, hb, hn⟩ := h
  rcases gws_cases cb ⟨hr, hw, hb, hn⟩ with ⟨hgws, hr0, hrw⟩ | ⟨hgws, hr0⟩ | ⟨hgws, hrw⟩
  all_goals
    have hW : cb.num_writable = cb.get_write_sizes.1 + cb.get_write_sizes.2 :=
      (write_sizes_sum cb ⟨hr, hw, hb, hn⟩).symm
  · -- read_pos nonzero, read_pos <= write_pos: the data may wrap
    rw [hgws] at hW
    simp only [CircBuf.write, hgws, hW]
    by_cases hwrap : min data.length (cb.size - cb.write_pos + (cb.read_pos - 1)) >
        cb.size - cb.write_pos
    · rw [if_pos hwrap]
      have hff : min (min data.length (cb.size - cb.write_pos + (cb.read_pos - 1)))
          (cb.size - cb.write_pos) = cb.size - cb.write_pos := min_eq_right (by omega)
      rw [hff]
      exact cell_wrap cb.buf data cb.write_pos cb.size _ j hw hj hwrap (by omega) (by omega)
    · rw [if_neg hwrap]
      have hff : min (min data.length (cb.size - cb.write_pos + (cb.read_pos - 1)))
          (cb.size - cb.write_pos) = min data.length (cb.size - cb.write_pos + (cb.read_pos - 1)) :=
        min_eq_left (by omega)
      rw [hff]
      exact cell_nowrap cb.buf data cb.write_pos cb.size _ j hw hj (by omega) (by omega)
  · -- read_pos = 0: a single region, never wrapping
    rw [hgws] at hW
    simp only [CircBuf.write, hgws, hW]
    have hnw : ¬ min data.length (cb.size - cb.write_pos - 1 + 0) >
        cb.size - cb.write_pos - 1 := by omega
    rw [if_neg hnw]
    have hff : min (min data.length (cb.size - cb.write_pos - 1 + 0))
        (cb.size - cb.write_pos - 1) = min data.length (cb.size - cb.write_pos - 1 + 0) :=
      min_eq_left (by omega)
    rw [hff]
    exact cell_nowrap cb.buf data cb.write_pos cb.size _ j hw hj (by omega) (by omega)
  · -- write_pos < read_pos: a single region, never wrapping
    rw [hgws] at hW
    simp only [CircBuf.write, hgws, hW]
    have hnw : ¬ min data.length (cb.read_pos - cb.write_pos - 1 + 0) >
        cb.read_pos - cb.write_pos - 1 := by omega
    rw [if_neg hnw]
    have hff : min (min data.length (cb.read_pos - cb.write_pos - 1 + 0))
        (cb.read_pos - cb.write_pos - 1) = min data.length (cb.read_pos - cb.write_pos - 1 + 0) :=
      min_eq_left (by omega)
    rw [hff]
    exact cell_nowrap cb.buf data cb.write_pos cb.size _ j hw hj (by omega) (by omega)

theorem readableList_length (cb : CircBuf) : cb.readableList.length = cb.num_readable := by
  simp [CircBuf.readableList]

theorem readableList_getElem (cb : CircBuf) (i : Nat) (hi : i < cb.readableList.length) :
    cb.readableList[i] = cb.buf ((cb.read_pos + i) % cb.size) := by
  simp [CircBuf.readableList]

/-- Ring distance from write_pos of a cell holding already-readable data:
it lands at or beyond the readable count, so a write never overwrites it. -/
theorem ring_dist_lt (r w n i k : Nat) (hr : r < n) (hw : w < n)
    (hk : k = (w + n - r) % n) (hik : i < k) :
    ((r + i) % n + n - w) % n = n - k + i := by
  have hkn : k < n := by
    rw [hk]
    exact Nat.mod_lt _ (by omega)
  rw [mod_two_cases (w + n - r) n (by omega)] at hk
  rw [mod_two_cases (r + i) n (by omega)]
  split_ifs with h1
  · rw [mod_two_cases (r + i + n - w) n (by omega)]
    split_ifs at hk ⊢ <;> omega
  · rw [mod_two_cases (r + i - n + n - w) n (by omega)]
    split_ifs at hk ⊢ <;> omega

/-- Ring distance from write_pos of the cell at readable-offset i at or past
the old readable count: it is exactly i minus that count, i.e. the offset of
the newly written byte stored there. -/
theorem ring_dist_ge (r w n i k : Nat) (hr : r < n) (hw : w < n)
    (hk : k = (w + n - r) % n) (hik : k ≤ i) (hin : i < n) :
    ((r + i) % n + n - w) % n = i - k := by
  have hkn : k < n := by
    rw [hk]
    exact Nat.mod_lt _ (by omega)
  rw [mod_two_cases (w + n - r) n (by omega)] at hk
  rw [mod_two_cases (r + i) n (by omega)]
  split_ifs with h1
  · rw [mod_two_cases (r + i + n - w) n (by omega)]
    split_ifs at hk ⊢ <;> omega
  · rw [mod_two_cases (r + i - n + n - w) n (by omega)]
    split_ifs at hk ⊢ <;> omega

theorem write_num_readable (cb : CircBuf) (data : List Nat) (h : cb.V) :
    (cb.write data).2.num_readable = cb.num_readable + (cb.write data).1 := by
  have hV' := write_V cb data h
  have hk := num_readable_eq_mod cb h
  have hsum := readable_add_writable cb h
  have hble : (cb.write data).1 ≤ cb.num_writable := by
    rw [write_count cb data h]
    exact min_le_right _ _
  obtain ⟨hr, hw, hb, hn⟩ := h
  rw [num_readable_eq_mod _ hV', write_write_pos, write_read_pos, write_size]
  rw [mod_two_cases (cb.write_pos + (cb.write data).1) cb.size (by omega)]
  rw [mod_two_cases (cb.write_pos + cb.size - cb.read_pos) cb.size (by omega)] at hk
  split_ifs with h1
  · rw [mod_two_cases (cb.write_pos + (cb.write data).1 + cb.size - cb.read_pos) cb.size (by omega)]
    split_ifs at hk ⊢ <;> omega
  · rw [mod_two_cases (cb.write_pos + (cb.write data).1 - cb.size + cb.size - cb.read_pos) cb.size (by omega)]
    split_ifs at hk ⊢ <;> omega

/-- Queue abstraction of CircBuf::write: the readable sequence is extended by
exactly the written prefix of the data, and nothing else changes in it. -/
theorem write_readableList (cb : CircBuf) (data : List Nat) (h : cb.V) :
    (cb.write data).2.readableList =
      cb.readableList ++ data.take (cb.write data).1 := by
  have hV' := write_V cb data h
  have hk := num_readable_eq_mod cb h
  have hsum := readable_add_writable cb h
  have hble : (cb.write data).1 ≤ cb.num_writable := by
    rw [write_count cb data h]
    exact min_le_right _ _
  have hlen : (cb.write data).1 ≤ data.length := by
    rw [write_count cb data h]
    exact min_le_left _ _
  have hnewk := write_num_readable cb data h
  obtain ⟨hr, hw, hb, hn⟩ := h
  have hkn : cb.num_readable < cb.size := by
    rw [hk]
    exact Nat.mod_lt _ (by omega)
  apply List.ext_getElem
  · rw [readableList_length, hnewk, List.length_append, readableList_length,
      List.length_take]
    omega
  · intro i h1 h2
    rw [readableList_getElem _ _ h1, write_read_pos, write_size]
    rw [write_cell cb data ⟨hr, hw, hb, hn⟩ _ (Nat.mod_lt _ (by omega))]
    rw [readableList_length, hnewk] at h1
    by_cases hik : i < cb.num_readable
    · rw [ring_dist_lt cb.read_pos cb.write_pos cb.size i cb.num_readable hr hw hk hik]
      rw [if_neg (by omega)]
      rw [List.getElem_append_left (by rw [readableList_length]; exact hik)]
      exact (readableList_getElem cb i (by rw [readableList_length]; exact hik)).symm
    · rw [ring_dist_ge cb.read_pos cb.write_pos cb.size i cb.num_readable hr hw hk
        (by omega) (by omega)]
      rw [if_pos (by omega)]
      rw [List.getElem_append_right (by rw [readableList_length]; omega)]
      simp only [readableList_length]
      rw [List.getElem_take data]
      exact List.getD_eq_getElem data 0 (by omega)

theorem grs_cases (cb : CircBuf) (h : cb.V) :
    (cb.get_read_sizes = (cb.write_pos - cb.read_pos, 0) ∧
      cb.read_pos < cb.write_pos) ∨
    (cb.get_read_sizes = (cb.size - cb.read_pos, cb.write_pos) ∧
      cb.write_pos < cb.read_pos) ∨
    (cb.get_read_sizes = (0, 0) ∧ cb.read_pos = cb.write_pos) := by
  obtain ⟨hr, hw, hb, hn⟩ := h
  simp only [CircBuf.get_read_sizes]
  split_ifs with h1 h2
  · exact Or.inl ⟨rfl, h1⟩
  · exact Or.inr (Or.inl ⟨rfl, h2⟩)
  · exact Or.inr (Or.inr ⟨rfl, by omega⟩)

theorem read_count (cb : CircBuf) (bs0 : Nat) (h : cb.V) :
    (cb.read bs0).1.length = min bs0 cb.num_readable := by
  have hs := read_sizes_sum cb h
  simp only [CircBuf.read]
  rw [List.length_append]
  split_ifs with h1 <;>
    simp only [List.length_map, List.length_range, List.length_nil] <;> omega

theorem read_write_pos (cb : CircBuf) (bs0 : Nat) :
    (cb.read bs0).2.write_pos = cb.write_pos := rfl

theorem read_size (cb : CircBuf) (bs0 : Nat) : (cb.read bs0).2.size = cb.size := rfl

theorem read_blocksize (cb : CircBuf) (bs0 : Nat) :
    (cb.read bs0).2.m_iBlockSize = cb.m_iBlockSize := rfl

theorem read_read_pos (cb : CircBuf) (bs0 : Nat) (h : cb.V) :
    (cb.read bs0).2.read_pos = (cb.read_pos + min bs0 cb.num_readable) % cb.size := by
  simp only [CircBuf.read]
  rw [read_sizes_sum cb h]

theorem read_V (cb : CircBuf) (bs0 : Nat) (h : cb.V) : (cb.read bs0).2.V := by
  have h2 := h
  obtain ⟨hr, hw, hb, hn⟩ := h2
  refine ⟨?_, ?_, ?_, ?_⟩
  · rw [read_read_pos cb bs0 h, read_size]
    exact Nat.mod_lt _ (by omega)
  · rw [read_write_pos, read_size]
    exact hw
  · rw [read_blocksize]
    exact hb
  · rw [read_size]
    exact hn

/-- Pointwise effect of CircBuf::read on the backing array: exactly the cells
whose ring distance from read_pos is below the count actually read receive the
0xFF sentinel; no other cell changes. -/
theorem read_cell (cb : CircBuf) (bs0 : Nat) (h : cb.V) (j : Nat)
    (hj : j < cb.size) :
    (cb.read bs0).2.buf j =
      if (j + cb.size - cb.read_pos) % cb.size < min bs0 cb.num_readable then 255
      else cb.buf j := by
  have hsum := read_sizes_sum cb h
  obtain ⟨hr, hw, hb, hn⟩ := h
  rcases grs_cases cb ⟨hr, hw, hb, hn⟩ with ⟨hgrs, hrw⟩ | ⟨hgrs, hrw⟩ | ⟨hgrs, hrw⟩
  · -- read_pos < write_pos: data contiguous, no wrap possible
    have hknum : cb.num_readable = cb.write_pos - cb.read_pos := by
      simp only [CircBuf.num_readable]
      split_ifs <;> omega
    simp only [CircBuf.read, hgrs]
    rw [if_neg (by omega)]
    have hff : min (min bs0 (cb.write_pos - cb.read_pos + 0)) (cb.write_pos - cb.read_pos) =
        min bs0 (cb.write_pos - cb.read_pos + 0) := min_eq_left (by omega)
    rw [hff, hknum]
    have := set_cell_nowrap cb.buf 255 cb.read_pos cb.size
      (min bs0 (cb.write_pos - cb.read_pos + 0)) j hr hj (by omega)
    rw [this]
    have heq : min bs0 (cb.write_pos - cb.read_pos + 0) = min bs0 (cb.write_pos - cb.read_pos) := by
      omega
    rw [heq]
  · -- write_pos < read_pos: data may wrap
    have hknum : cb.num_readable = cb.size - cb.read_pos + cb.write_pos := by
      simp only [CircBuf.num_readable]
      split_ifs <;> omega
    simp only [CircBuf.read, hgrs]
    by_cases hwrap : min bs0 (cb.size - cb.read_pos + cb.write_pos) > cb.size - cb.read_pos
    · rw [if_pos (by omega)]
      have hff : min (min bs0 (cb.size - cb.read_pos + cb.write_pos)) (cb.size - cb.read_pos) =
          cb.size - cb.read_pos := min_eq_right (by omega)
      rw [hff, hknum]
      exact set_cell_wrap cb.buf 255 cb.read_pos cb.size _ j hr hj (by omega) (by omega)
    · rw [if_neg (by omega)]
      have hff : min (min bs0 (cb.size - cb.read_pos + cb.write_pos)) (cb.size - cb.read_pos) =
          min bs0 (cb.size - cb.read_pos + cb.write_pos) := min_eq_left (by omega)
      rw [hff, hknum]
      exact set_cell_nowrap cb.buf 255 cb.read_pos cb.size _ j hr hj (by omega)
  · -- empty buffer: nothing read, nothing set
    have hknum : cb.num_readable = 0 := by
      simp only [CircBuf.num_readable]
      split_ifs <;> omega
    simp only [CircBuf.read, hgrs, hknum]
    rw [if_neg (by omega)]
    simp only [memsetF]
    rw [if_neg (by omega), if_neg (by omega)]

theorem getElem_range_map (f : Nat → Nat) (k i : Nat)
    (h : i < ((List.range k).map f).length) : ((List.range k).map f)[i] = f i := by
  simp

/-- Value abstraction of CircBuf::read: the returned elements are precisely
the oldest readable bytes, i.e. a prefix of the readable sequence. -/
theorem read_out (cb : CircBuf) (bs0 : Nat) (h : cb.V) :
    (cb.read bs0).1 = cb.readableList.take bs0 := by
  have hV := h
  have hsum := read_sizes_sum cb h
  obtain ⟨hr, hw, hb, hn⟩ := h
  have hkn : cb.num_readable < cb.size := by
    rw [num_readable_eq_mod cb hV]
    exact Nat.mod_lt _ (by omega)
  rcases grs_cases cb hV with ⟨hgrs, hrw⟩ | ⟨hgrs, hrw⟩ | ⟨hgrs, hrw⟩
  · -- read_pos < write_pos: contiguous, no wrap
    have hknum : cb.num_readable = cb.write_pos - cb.read_pos := by
      simp only [CircBuf.num_readable]
      split_ifs <;> omega
    have hout : (cb.read bs0).1 =
        (List.range (min bs0 (cb.write_pos - cb.read_pos + 0))).map
          (fun t => cb.buf (cb.read_pos + t)) := by
      simp only [CircBuf.read, hgrs]
      rw [if_neg (by omega), List.append_nil]
      have hff : min (min bs0 (cb.write_pos - cb.read_pos + 0)) (cb.write_pos - cb.read_pos) =
          min bs0 (cb.write_pos - cb.read_pos + 0) := min_eq_left (by omega)
      rw [hff]
    rw [hout]
    apply List.ext_getElem
    · simp only [List.length_map, List.length_range, List.length_take, readableList_length]
      omega
    · intro i hA hB
      simp only [List.length_map, List.length_range] at hA
      rw [getElem_range_map _ _ _ (by simp only [List.length_map, List.length_range]; omega)]
      rw [List.getElem_take _]
      rw [readableList_getElem cb i
        (by simp only [List.length_take, readableList_length] at hB ⊢; omega)]
      rw [Nat.mod_eq_of_lt (by omega)]
  · -- write_pos < read_pos
    have hknum : cb.num_readable = cb.size - cb.read_pos + cb.write_pos := by
      simp only [CircBuf.num_readable]
      split_ifs <;> omega
    by_cases hwrap : min bs0 (cb.size - cb.read_pos + cb.write_pos) > cb.size - cb.read_pos
    · -- the read wraps around the end of the array
      have hout : (cb.read bs0).1 =
          (List.range (cb.size - cb.read_pos)).map (fun t => cb.buf (cb.read_pos + t)) ++
          (List.range (min bs0 (cb.size - cb.read_pos + cb.write_pos) - (cb.size - cb.read_pos))).map
            (fun t => cb.buf t) := by
        simp only [CircBuf.read, hgrs]
        rw [if_pos (by omega)]
        have hff : min (min bs0 (cb.size - cb.read_pos + cb.write_pos)) (cb.size - cb.read_pos) =
            cb.size - cb.read_pos := min_eq_right (by omega)
        rw [hff]
      rw [hout]
      apply List.ext_getElem
      · simp only [List.length_append, List.length_map, List.length_range, List.length_take,
          readableList_length]
        omega
      · intro i hA hB
        simp only [List.length_append, List.length_map, List.length_range] at hA
        rw [List.getElem_take _]
        rw [readableList_getElem cb i
          (by simp only [List.length_take, readableList_length] at hB ⊢; omega)]
        by_cases hi2 : i < cb.size - cb.read_pos
        · rw [List.getElem_append_left (by simp only [List.length_map, List.length_range]; omega)]
          rw [getElem_range_map _ _ _ (by simp only [List.length_map, List.length_range]; omega)]
          rw [Nat.mod_eq_of_lt (by omega)]
        · rw [List.getElem_append_right (by simp only [List.length_map, List.length_range]; omega)]
          rw [getElem_range_map _ _ _ (by simp only [List.length_map, List.length_range] at *; omega)]
          have hmod : (cb.read_pos + i) % cb.size = cb.read_pos + i - cb.size := by
            rw [mod_two_cases _ _ (by omega)]
            rw [if_neg (by omega)]
          rw [hmod]
          congr 1
          simp only [List.length_map, List.length_range]
          omega
    · -- the read stays within the tail segment
      have hout : (cb.read bs0).1 =
          (List.range (min bs0 (cb.size - cb.read_pos + cb.write_pos))).map
            (fun t => cb.buf (cb.read_pos + t)) := by
        simp only [CircBuf.read, hgrs]
        rw [if_neg (by omega), List.append_nil]
        have hff : min (min bs0 (cb.size - cb.read_pos + cb.write_pos)) (cb.size - cb.read_pos) =
            min bs0 (cb.size - cb.read_pos + cb.write_pos) := min_eq_left (by omega)
        rw [hff]
      rw [hout]
      apply List.ext_getElem
      · simp only [List.length_map, List.length_range, List.length_take, readableList_length]
        omega
      · intro i hA hB
        simp only [List.length_map, List.length_range] at hA
        rw [getElem_range_map _ _ _ (by simp only [List.length_map, List.length_range]; omega)]
        rw [List.getElem_take _]
        rw [readableList_getElem cb i
          (by simp only [List.length_take, readableList_length] at hB ⊢; omega)]
        rw [Nat.mod_eq_of_lt (by omega)]
  · -- empty buffer: both sides are empty
    have hknum : cb.num_readable = 0 := by
      simp only [CircBuf.num_readable]
      split_ifs <;> omega
    have hout : (cb.read bs0).1 = [] := by
      apply List.eq_nil_of_length_eq_zero
      rw [read_count cb bs0 hV]
      omega
    have htake : cb.readableList.take bs0 = [] := by
      apply List.eq_nil_of_length_eq_zero
      simp only [List.length_take, readableList_length]
      omega
    rw [hout, htake]

/-- Ring distance from the old read_pos of a cell still readable after a read
advanced the cursor by bs: it is bs plus the new offset, hence at or past the
count read, so the sentinel memsets never touch surviving data. -/
theorem ring_dist_shift (r n bs i : Nat) (hr : r < n) (hbi : bs + i < n) :
    (((r + bs) % n + i) % n + n - r) % n = bs + i := by
  rw [mod_two_cases (r + bs) n (by omega)]
  split_ifs with h1
  · rw [mod_two_cases (r + bs + i) n (by omega)]
    split_ifs with h2
    · rw [mod_two_cases (r + bs + i + n - r) n (by omega)]
      split_ifs <;> omega
    · rw [mod_two_cases (r + bs + i - n + n - r) n (by omega)]
      split_ifs <;> omega
  · rw [mod_two_cases (r + bs - n + i) n (by omega)]
    split_ifs with h2
    · rw [mod_two_cases (r + bs - n + i + n - r) n (by omega)]
      split_ifs <;> omega
    · rw [mod_two_cases (r + bs - n + i - n + n - r) n (by omega)]
      split_ifs <;> omega

theorem read_num_readable (cb : CircBuf) (bs0 : Nat) (h : cb.V) :
    (cb.read bs0).2.num_readable = cb.num_readable - min bs0 cb.num_readable := by
  have hV' := read_V cb bs0 h
  have hk := num_readable_eq_mod cb h
  obtain ⟨hr, hw, hb, hn⟩ := h
  have hkn : cb.num_readable < cb.size := by
    rw [hk]
    exact Nat.mod_lt _ (by omega)
  rw [num_readable_eq_mod _ hV', read_write_pos, read_read_pos cb bs0 ⟨hr, hw, hb, hn⟩,
    read_size]
  rw [mod_two_cases (cb.read_pos + min bs0 cb.num_readable) cb.size (by omega)]
  rw [mod_two_cases (cb.write_pos + cb.size - cb.read_pos) cb.size (by omega)] at hk
  split_ifs with h1
  · rw [mod_two_cases (cb.write_pos + cb.size - (cb.read_pos + min bs0 cb.num_readable))
      cb.size (by omega)]
    split_ifs at hk ⊢ <;> omega
  · rw [mod_two_cases
      (cb.write_pos + cb.size - (cb.read_pos + min bs0 cb.num_readable - cb.size))
      cb.size (by omega)]
    split_ifs at hk ⊢ <;> omega

/-- Queue abstraction of CircBuf::read: the readable sequence loses exactly
the prefix that was read; the sentinel overwrite never touches surviving
data. -/
theorem read_readableList (cb : CircBuf) (bs0 : Nat) (h : cb.V) :
    (cb.read bs0).2.readableList = cb.readableList.drop bs0 := by
  have hV := h
  have hV' := read_V cb bs0 h
  have hk := num_readable_eq_mod cb h
  obtain ⟨hr, hw, hb, hn⟩ := h
  have hkn : cb.num_readable < cb.size := by
    rw [hk]
    exact Nat.mod_lt _ (by omega)
  apply List.ext_getElem
  · rw [readableList_length, read_num_readable cb bs0 hV, List.length_drop,
      readableList_length]
    omega
  · intro i h1 h2
    rw [readableList_getElem _ _ h1, read_read_pos cb bs0 hV, read_size]
    rw [readableList_length, read_num_readable cb bs0 hV] at h1
    rw [read_cell cb bs0 hV _ (Nat.mod_lt _ (by omega))]
    rw [ring_dist_shift cb.read_pos cb.size (min bs0 cb.num_readable) i hr (by omega)]
    rw [if_neg (by omega)]
    rw [List.getElem_drop]
    rw [readableList_getElem cb (bs0 + i) (by rw [readableList_length]; omega)]
    congr 1
    have hble : min bs0 cb.num_readable = bs0 := by omega
    rw [hble, Nat.mod_add_mod, Nat.add_assoc]

theorem epReach_inv (e : EndpointGhost) (h : EpReach e) : EpInv e := by
  induction h with
  | init pairInit =>
    refine ⟨?_, fun _ => ⟨?_, ?_⟩, fun m hm => by simp at hm⟩
    · show (CircBuf.reserve 300 1).V
      decide
    · show (0 : Int) ≤ 0
      decide
    · show (0 : Int) = ((CircBuf.reserve 300 1).num_readable : Int)
      decide
  | step e e' h hs ih =>
    obtain ⟨ihV, ihNone, ihSome⟩ := ih
    cases hs with
    | write data =>
      have hcnt := write_num_readable e.sdc.buffer data ihV
      have hV' := write_V e.sdc.buffer data ihV
      refine ⟨hV', fun hc => ?_, fun m hm => ?_⟩
      · obtain ⟨h0, heq⟩ := ihNone hc
        constructor
        · simp only [writing]
          omega
        · simp only [writing, hcnt]
          push_cast
          omega
      · have := ihSome m hm
        simp only [writing, hcnt]
        push_cast
        omega
    | readImmediate n mn time timeout bytesRead out s' nd hclaim hdone =>
      obtain ⟨h0, heq⟩ := ihNone hclaim
      simp only [reading] at hdone
      split_ifs at hdone with hg hpos hneg ht
      · -- immediate branch, bytesRead > 0
        rw [ReadOutcome.done.injEq] at hdone
        obtain ⟨hbr, hout, hs', hnd⟩ := hdone
        have hcnt := read_num_readable e.sdc.buffer (intToUnsigned n) ihV
        have hlen := read_count e.sdc.buffer (intToUnsigned n) ihV
        have hV' := read_V e.sdc.buffer (intToUnsigned n) ihV
        subst hs'
        refine ⟨hV', fun _ => ?_, fun m hm => by simp at hm⟩
        constructor
        · simp only
          rw [hlen]
          push_cast
          omega
        · simp only [hcnt]
          rw [hlen]
          push_cast
          omega
      · -- immediate branch, nothing read
        rw [ReadOutcome.done.injEq] at hdone
        obtain ⟨hbr, hout, hs', hnd⟩ := hdone
        have hcnt := read_num_readable e.sdc.buffer (intToUnsigned n) ihV
        have hlen := read_count e.sdc.buffer (intToUnsigned n) ihV
        have hV' := read_V e.sdc.buffer (intToUnsigned n) ihV
        subst hs'
        refine ⟨hV', fun _ => ?_, fun m hm => by simp at hm⟩
        rw [hlen] at hpos
        constructor
        · simp only
          exact h0
        · simp only [hcnt]
          push_cast at hpos ⊢
          omega
    | enterWait n mn time timeout s' hclaim hblocked =>
      obtain ⟨h0, heq⟩ := ihNone hclaim
      simp only [reading] at hblocked
      split_ifs at hblocked with hg hpos hneg ht
      all_goals simp only [ReadOutcome.blocked.injEq] at hblocked
      all_goals subst hblocked
      all_goals refine ⟨ihV, fun hc => by simp at hc, fun m hm => ?_⟩
      all_goals simp only [Option.some.injEq] at hm
      all_goals subst hm
      all_goals simp only
      all_goals omega
    | wake n mn hclaim hcond =>
      have hrel := ihSome mn hclaim
      have hcnt := read_num_readable e.sdc.buffer (intToUnsigned n) ihV
      have hlen := read_count e.sdc.buffer (intToUnsigned n) ihV
      have hV' := read_V e.sdc.buffer (intToUnsigned n) ihV
      refine ⟨hV', fun _ => ?_, fun m hm => by simp at hm⟩
      constructor
      · simp only [readWake]
        rw [hlen]
        push_cast
        omega
      · simp only [readWake, hcnt]
        rw [hlen]
        push_cast
        omega
    | peerClosed =>
      exact ⟨ihV, fun hc => ihNone hc, fun m hm => ihSome m hm⟩

theorem reserve_V (n : Nat) (hn : 1 ≤ n) (hn2 : n + 1 < 2 ^ 32) :
    (CircBuf.reserve n 1).V := by
  refine ⟨?_, ?_, rfl, ?_⟩ <;>
    · simp only [CircBuf.reserve]
      rw [if_pos (by omega : n ≠ 0)]
      omega

theorem reserve_num_readable (n : Nat) : (CircBuf.reserve n 1).num_readable = 0 := rfl

theorem reserve_readableList (n : Nat) : (CircBuf.reserve n 1).readableList = [] := rfl

theorem reserve_size (n : Nat) (hn : 1 ≤ n) (hn2 : n + 1 < 2 ^ 32) :
    (CircBuf.reserve n 1).size = n + 1 := by
  simp only [CircBuf.reserve]
  rw [if_pos (by omega : n ≠ 0)]
  omega

theorem cbReach_V (n : Nat) (cb : CircBuf) (hn : 1 ≤ n) (hn2 : n + 1 < 2 ^ 32)
    (h : CBReach n cb) : cb.V := by
  induction h with
  | init => exact reserve_V n hn hn2
  | write cb data h ih => exact write_V cb data ih
  | read cb bs0 h ih => exact read_V cb bs0 ih
  | advanceWrite cb k h ih =>
    obtain ⟨hr, hw, hb, hsz⟩ := ih
    exact ⟨hr, Nat.mod_lt _ (by omega), hb, hsz⟩
  | advanceRead cb k h ih =>
    obtain ⟨hr, hw, hb, hsz⟩ := ih
    exact ⟨Nat.mod_lt _ (by omega), hw, hb, hsz⟩

/-- C9: for every ring buffer state reachable after construction via reserve
(with the default block size 1, the only one this repository uses, and a
nonempty allocation in unsigned range) and any sequence of write, read and
cursor-advance operations, num_readable() + num_writable() equals
capacity() - 1 in a snapshot of the state. -/
theorem C9_capacity_bound (n : Nat) (cb : CircBuf) (hn : 1 ≤ n)
    (hn2 : n + 1 < 2 ^ 32) (h : CBReach n cb) :
    cb.num_readable + cb.num_writable = cb.capacity - 1 :=
  readable_add_writable cb (cbReach_V n cb hn hn2 h)

/-- Witness for C9 at a concrete reachable state: reserve 300, write 3 bytes,
read 2 of them. -/
theorem C9_capacity_bound_witness :
    (((CircBuf.reserve 300 1).write [1, 2, 3]).2.read 2).2.num_readable +
      (((CircBuf.reserve 300 1).write [1, 2, 3]).2.read 2).2.num_writable =
      (((CircBuf.reserve 300 1).write [1, 2, 3]).2.read 2).2.capacity - 1 :=
  C9_capacity_bound 300 _ (by decide) (by decide)
    (CBReach.read _ 2 (CBReach.write _ [1, 2, 3] CBReach.init))

theorem flatten_length (l : List (List Nat)) :
    l.flatten.length = (l.map List.length).sum := by
  induction l with
  | nil => rfl
  | cons w ws ih => simp [ih]

theorem foldl_write_spec (ws : List (List Nat)) (cb : CircBuf) (h : cb.V)
    (hfit : cb.num_readable + (ws.map List.length).sum ≤ cb.size - 1) :
    (ws.foldl (fun c w => (c.write w).2) cb).V ∧
    (ws.foldl (fun c w => (c.write w).2) cb).readableList =
      cb.readableList ++ ws.flatten := by
  induction ws generalizing cb with
  | nil =>
    simpa using h
  | cons w ws ih =>
    have hsum := readable_add_writable cb h
    have hcount := write_count cb w h
    have hfull : (cb.write w).1 = w.length := by
      rw [hcount]
      simp only [List.map_cons, List.sum_cons] at hfit
      omega
    have hV1 := write_V cb w h
    have hnum := write_num_readable cb w h
    have hrl := write_readableList cb w h
    obtain ⟨iV, iR⟩ := ih (cb.write w).2 hV1 (by
      rw [hnum, hfull, write_size]
      simp only [List.map_cons, List.sum_cons] at hfit
      omega)
    refine ⟨by simpa using iV, ?_⟩
    simp only [List.foldl_cons]
    rw [iR, hrl, hfull, List.take_length]
    simp [List.append_assoc]

/-- C8: FIFO ordering.  Starting from a freshly reserved buffer, any sequence
of writes whose total size fits the free capacity, followed by one read whose
requested length covers that total, returns exactly the concatenation of the
written chunks, oldest bytes first. -/
theorem C8_fifo_ordering (n : Nat) (hn : 1 ≤ n) (hn2 : n + 1 < 2 ^ 32)
    (ws : List (List Nat)) (hfit : (ws.map List.length).sum ≤ n)
    (m : Nat) (hm : (ws.map List.length).sum ≤ m) :
    ((ws.foldl (fun c w => (c.write w).2) (CircBuf.reserve n 1)).read m).1 =
      ws.flatten := by
  have h0 := reserve_V n hn hn2
  obtain ⟨fV, fR⟩ := foldl_write_spec ws (CircBuf.reserve n 1) h0 (by
    rw [reserve_num_readable, reserve_size n hn hn2]
    omega)
  rw [read_out _ m fV, fR, reserve_readableList, List.nil_append]
  apply List.take_of_length_le
  rw [flatten_length]
  exact hm

/-- Witness for C8 at a concrete instance: three writes, then one covering
read returning their concatenation. -/
theorem C8_fifo_ordering_witness :
    (([[1, 2], [3], [4, 5, 6]].foldl (fun c w => (c.write w).2)
        (CircBuf.reserve 300 1)).read 6).1 = [[1, 2], [3], [4, 5, 6]].flatten :=
  C8_fifo_ordering 300 (by decide) (by decide) [[1, 2], [3], [4, 5, 6]]
    (by decide) 6 (by decide)

/-- C5: a write to a paired descriptor whose peer is open returns n, the byte
count actually appended to the peer's ring buffer; n equals the requested
length when the free capacity suffices and is silently truncated to the free
capacity otherwise; the peer's backlog rises by exactly n.  The operation is
a pure state update with no wait (the .managed outcome is produced by
straight-line code). -/
theorem C5_write_nonblocking (v : List (Option socketDrainClass)) (des : Nat)
    (data : List Nat) (desInfoP peer : socketDrainClass)
    (hdes : v.getD des none = some desInfoP)
    (hopen : ¬ desInfoP.pair = -1)
    (hpeer : v.getD desInfoP.pair.toNat none = some peer)
    (hV : peer.buffer.V) :
    ∃ peer' : socketDrainClass,
      myWrite v des data =
        WriteResult.managed ((min data.length peer.buffer.num_writable : Nat) : Int)
          none (v.set desInfoP.pair.toNat (some peer')) (decide (0 ≤ peer'.buffered)) ∧
      peer'.buffered =
        peer.buffered + ((min data.length peer.buffer.num_writable : Nat) : Int) ∧
      peer'.buffer.readableList =
        peer.buffer.readableList ++ data.take (min data.length peer.buffer.num_writable) ∧
      peer'.pair = peer.pair := by
  refine ⟨(writing peer data).2.1, ?_, ?_, ?_, rfl⟩
  · simp only [myWrite, hdes, hpeer, hopen, if_false]
    simp only [writing, write_count peer.buffer data hV]
  · simp only [writing, write_count peer.buffer data hV]
  · simp only [writing, write_readableList peer.buffer data hV,
      write_count peer.buffer data hV]

/-- Witness for C5: a two-element registry, descriptor 0 paired with 1. -/
theorem C5_write_nonblocking_witness :
    ([some (mkSocketDrainClass 1), some (mkSocketDrainClass 0)].getD 0 none =
        some (mkSocketDrainClass 1)) ∧
    ¬ (mkSocketDrainClass 1).pair = -1 ∧
    (∃ peer' : socketDrainClass,
      myWrite [some (mkSocketDrainClass 1), some (mkSocketDrainClass 0)] 0 [7, 8, 9] =
        WriteResult.managed
          ((min [7, 8, 9].length (mkSocketDrainClass 0).buffer.num_writable : Nat) : Int)
          none
          ([some (mkSocketDrainClass 1), some (mkSocketDrainClass 0)].set
            (mkSocketDrainClass 1).pair.toNat (some peer'))
          (decide (0 ≤ peer'.buffered)) ∧
      peer'.buffered = (mkSocketDrainClass 0).buffered +
        ((min [7, 8, 9].length (mkSocketDrainClass 0).buffer.num_writable : Nat) : Int) ∧
      peer'.buffer.readableList = (mkSocketDrainClass 0).buffer.readableList ++
        [7, 8, 9].take (min [7, 8, 9].length (mkSocketDrainClass 0).buffer.num_writable) ∧
      peer'.pair = (mkSocketDrainClass 0).pair) :=
  ⟨rfl, by decide,
    C5_write_nonblocking [some (mkSocketDrainClass 1), some (mkSocketDrainClass 0)] 0
      [7, 8, 9] (mkSocketDrainClass 1) (mkSocketDrainClass 0) rfl (by decide) rfl
      (by decide)⟩

/-- C10: a write to a paired descriptor whose peer has been closed fails with
return value -1 and errno EPIPE, leaves the registry (hence every buffer and
backlog) unchanged, and wakes no waiter. -/
theorem C10_write_epipe (v : List (Option socketDrainClass)) (des : Nat)
    (data : List Nat) (desInfoP : socketDrainClass)
    (hdes : v.getD des none = some desInfoP)
    (hclosed : desInfoP.pair = -1) :
    myWrite v des data = WriteResult.managed (-1) (some EPIPE) v false := by
  simp only [myWrite, hdes, hclosed, if_true]

/-- Witness for C10 at a concrete one-element registry whose only endpoint
has a closed peer. -/
theorem C10_write_epipe_witness :
    myWrite [some (mkSocketDrainClass (-1))] 0 [1, 2] =
      WriteResult.managed (-1) (some EPIPE) [some (mkSocketDrainClass (-1))] false :=
  C10_write_epipe [some (mkSocketDrainClass (-1))] 0 [1, 2]
    (mkSocketDrainClass (-1)) rfl rfl

/-- C3: a read call finding buffered >= min, or finding the peer closed,
takes the immediate branch (a .done outcome of straight-line code: it never
blocks and never terminates the process): it returns min(n, bytes available)
bytes, which are the oldest buffered ones, decrements buffered by exactly
that count, and notifies drain-waiters exactly when the count was positive
and the backlog thereby reached 0. -/
theorem C3_immediate_read (s : socketDrainClass) (n mn time timeout : Int)
    (hV : s.buffer.V) (hg : mn ≤ s.buffered ∨ s.pair = -1) :
    ∃ (br : Int) (out : List Nat) (s' : socketDrainClass) (nd : Bool),
      reading s n mn time timeout = ReadOutcome.done br out s' nd ∧
      br = ((min (intToUnsigned n) s.buffer.num_readable : Nat) : Int) ∧
      out = s.buffer.readableList.take (intToUnsigned n) ∧
      s'.buffered = s.buffered - br ∧
      s'.buffer.readableList = s.buffer.readableList.drop (intToUnsigned n) ∧
      s'.pair = s.pair ∧
      (nd = true ↔ 0 < br ∧ s'.buffered = 0) := by
  have hlen := read_count s.buffer (intToUnsigned n) hV
  have hout := read_out s.buffer (intToUnsigned n) hV
  have hrl := read_readableList s.buffer (intToUnsigned n) hV
  by_cases hbr : (0 : Int) < ((s.buffer.read (intToUnsigned n)).1.length : Int)
  · refine ⟨((s.buffer.read (intToUnsigned n)).1.length : Int),
      (s.buffer.read (intToUnsigned n)).1,
      { s with buffer := (s.buffer.read (intToUnsigned n)).2,
               buffered := s.buffered - ((s.buffer.read (intToUnsigned n)).1.length : Int) },
      decide (s.buffered - ((s.buffer.read (intToUnsigned n)).1.length : Int) = 0),
      ?_, ?_, hout, rfl, hrl, rfl, ?_⟩
    · simp only [reading]
      rw [if_pos hg, if_pos hbr]
    · rw [hlen]
    · simp only
      constructor
      · intro hd
        rw [decide_eq_true_eq] at hd
        exact ⟨hbr, by omega⟩
      · intro ⟨h1, h2⟩
        rw [decide_eq_true_eq]
        omega
  · refine ⟨((s.buffer.read (intToUnsigned n)).1.length : Int),
      (s.buffer.read (intToUnsigned n)).1,
      { s with buffer := (s.buffer.read (intToUnsigned n)).2 },
      false, ?_, ?_, hout, ?_, hrl, rfl, ?_⟩
    · simp only [reading]
      rw [if_pos hg, if_neg hbr]
    · rw [hlen]
    · simp only
      omega
    · simp only [Bool.false_eq_true, false_iff]
      intro ⟨h1, h2⟩
      omega

/-- Witness for C3: an endpoint holding 5 bytes, read with n = 3, min = 1. -/
theorem C3_immediate_read_witness :
    ((writing (mkSocketDrainClass 1) [1, 2, 3, 4, 5]).2.1.buffer.V ∧
      ((1 : Int) ≤ (writing (mkSocketDrainClass 1) [1, 2, 3, 4, 5]).2.1.buffered ∨
        (writing (mkSocketDrainClass 1) [1, 2, 3, 4, 5]).2.1.pair = -1)) ∧
    (∃ (br : Int) (out : List Nat) (s' : socketDrainClass) (nd : Bool),
      reading (writing (mkSocketDrainClass 1) [1, 2, 3, 4, 5]).2.1 3 1 0 0 =
        ReadOutcome.done br out s' nd ∧
      br = ((min (intToUnsigned 3)
        (writing (mkSocketDrainClass 1) [1, 2, 3, 4, 5]).2.1.buffer.num_readable : Nat) : Int) ∧
      out = (writing (mkSocketDrainClass 1) [1, 2, 3, 4, 5]).2.1.buffer.readableList.take
        (intToUnsigned 3) ∧
      s'.buffered = (writing (mkSocketDrainClass 1) [1, 2, 3, 4, 5]).2.1.buffered - br ∧
      s'.buffer.readableList =
        (writing (mkSocketDrainClass 1) [1, 2, 3, 4, 5]).2.1.buffer.readableList.drop
          (intToUnsigned 3) ∧
      s'.pair = (writing (mkSocketDrainClass 1) [1, 2, 3, 4, 5]).2.1.pair ∧
      (nd = true ↔ 0 < br ∧ s'.buffered = 0)) :=
  ⟨⟨by decide, Or.inl (by decide)⟩,
    C3_immediate_read (writing (mkSocketDrainClass 1) [1, 2, 3, 4, 5]).2.1 3 1 0 0
      (by decide) (Or.inl (by decide))⟩

/-- C1 counterexample: a blocked read with min = 2, n = 5 wakes after 5 bytes
arrive (backlog 3 at the wake) and copies 5 bytes.  The code sets the backlog
to 3 - (5 - 2) = 0; the claimed adjustment backlog += (bytes_copied - min)
would give 3 + (5 - 2) = 6, and is also inconsistent with the claim's own net
change of -bytes_copied.  The conjuncts pin the blocked state, the backlog at
the wake, the count copied, the code's resulting backlog 0, and the value 6
the claimed formula predicts. -/
theorem C1_counterexample :
    reading (mkSocketDrainClass 1) 5 2 0 0 =
      ReadOutcome.blocked { mkSocketDrainClass 1 with buffered := -2 } ∧
    (writing { mkSocketDrainClass 1 with buffered := -2 } [9, 9, 9, 9, 9]).2.1.buffered = 3 ∧
    (readWake (writing { mkSocketDrainClass 1 with buffered := -2 }
      [9, 9, 9, 9, 9]).2.1 5 2).1 = 5 ∧
    (readWake (writing { mkSocketDrainClass 1 with buffered := -2 }
      [9, 9, 9, 9, 9]).2.1 5 2).2.2.buffered = 0 ∧
    (writing { mkSocketDrainClass 1 with buffered := -2 } [9, 9, 9, 9, 9]).2.1.buffered +
      ((readWake (writing { mkSocketDrainClass 1 with buffered := -2 }
        [9, 9, 9, 9, 9]).2.1 5 2).1 - 2) = 6 :=
  ⟨rfl, by decide, by decide, by decide, by decide⟩

/-- C1 (amended): the post-wake adjustment executed by the code is
backlog -= (bytes_copied - min), so that together with the provisional
backlog -= min performed before the wait, a blocked read interleaved with
writes totalling w appended bytes leaves the backlog at its entry value
plus w minus bytes_copied: the read call's own contribution to the backlog
is exactly -bytes_copied. -/
theorem C1_amended_wake_adjustment (s : socketDrainClass) (n mn time timeout : Int)
    (data : List Nat) (s1 : socketDrainClass)
    (hblocked : reading s n mn time timeout = ReadOutcome.blocked s1)
    (hcond : readWakeCondition (writing s1 data).2.1) :
    (readWake (writing s1 data).2.1 n mn).2.2.buffered =
      s.buffered + (writing s1 data).1 -
        (readWake (writing s1 data).2.1 n mn).1 := by
  simp only [reading] at hblocked
  split_ifs at hblocked
  all_goals simp only [ReadOutcome.blocked.injEq] at hblocked
  all_goals subst hblocked
  all_goals simp only [writing, readWake]
  all_goals omega

/-- Witness for C1 (amended) at the counterexample's concrete run. -/
theorem C1_amended_wake_adjustment_witness :
    reading (mkSocketDrainClass 1) 5 2 0 0 =
      ReadOutcome.blocked { mkSocketDrainClass 1 with buffered := -2 } ∧
    (readWake (writing { mkSocketDrainClass 1 with buffered := -2 }
        [9, 9, 9, 9, 9]).2.1 5 2).2.2.buffered =
      (mkSocketDrainClass 1).buffered +
        (writing { mkSocketDrainClass 1 with buffered := -2 } [9, 9, 9, 9, 9]).1 -
        (readWake (writing { mkSocketDrainClass 1 with buffered := -2 }
          [9, 9, 9, 9, 9]).2.1 5 2).1 :=
  ⟨rfl, C1_amended_wake_adjustment (mkSocketDrainClass 1) 5 2 0 0 [9, 9, 9, 9, 9]
    { mkSocketDrainClass 1 with buffered := -2 } rfl (Or.inl (by decide))⟩

/-- C7 counterexample: a read on an endpoint with 5 bytes buffered, min = 1
and a nonzero timeout parameter (an unsupported timeout policy) returns
normally through the immediate branch instead of terminating the process, so
termination is not triggered exactly by the misuse conditions the claim
lists. -/
theorem C7_counterexample :
    (reading (writing (mkSocketDrainClass 1) [1, 2, 3, 4, 5]).2.1 5 1 3 3).isFatal =
      false := by
  rfl

/-- C7 (amended): reading terminates the process exactly when the blocking
path is entered (backlog < min and the peer still open) and there either is
an outstanding read claim (backlog < 0) or a nonzero time/timeout was
requested; fatal misuse is never detected on the immediate path, even with an
unsupported timeout policy. -/
theorem C7_amended_fatal_iff (s : socketDrainClass) (n mn time timeout : Int) :
    (reading s n mn time timeout).isFatal = true ↔
      (¬ (mn ≤ s.buffered ∨ s.pair = -1) ∧
        (s.buffered < 0 ∨ time ≠ 0 ∨ timeout ≠ 0)) := by
  simp only [reading]
  split_ifs with hg hpos hneg ht <;>
    simp only [ReadOutcome.isFatal] <;> tauto

/-- C6: closing an endpoint while its peer has a blocked threshold read with
an unmet deficit (buffered < 0) marks the peer closed and notifies its
read-waiter; the wake condition then holds because of the closed-peer
sentinel, and the woken read returns the bytes already available (all of
them, when the request n covers them; possibly zero) as a plain nonnegative
count, not an error. -/
theorem C6_close_wakes_blocked_reader (a b : socketDrainClass) (n mn : Int)
    (hdef : b.buffered < 0) (hV : b.buffer.V)
    (hn : b.buffer.num_readable ≤ intToUnsigned n) :
    ∃ b' : socketDrainClass,
      (finishClosing a (some b)).peer = some b' ∧
      b'.pair = -1 ∧
      (finishClosing a (some b)).peerReadNotified = true ∧
      readWakeCondition b' ∧
      (readWake b' n mn).1 = (b.buffer.num_readable : Int) ∧
      (readWake b' n mn).2.1 = b.buffer.readableList ∧
      0 ≤ (readWake b' n mn).1 := by
  refine ⟨{ b with pair := -1 }, rfl, rfl, ?_, Or.inr rfl, ?_, ?_, ?_⟩
  · simp only [finishClosing, decide_eq_true_eq]
    exact hdef
  · show ((b.buffer.read (intToUnsigned n)).1.length : Int) = _
    rw [read_count b.buffer (intToUnsigned n) hV, min_eq_right hn]
  · show (b.buffer.read (intToUnsigned n)).1 = _
    rw [read_out b.buffer (intToUnsigned n) hV]
    apply List.take_of_length_le
    rw [readableList_length]
    exact hn
  · show (0 : Int) ≤ ((b.buffer.read (intToUnsigned n)).1.length : Int)
    exact Int.natCast_nonneg _

/-- Witness for C6: endpoint with 2 bytes buffered and a blocked read with
min = 5 (deficit -3), whose peer is then closed; the read returns the 2
bytes. -/
theorem C6_close_wakes_blocked_reader_witness :
    ({ (writing (mkSocketDrainClass 0) [4, 7]).2.1 with
        buffered := (writing (mkSocketDrainClass 0) [4, 7]).2.1.buffered - 5 }
          : socketDrainClass).buffered < 0 ∧
    (∃ b' : socketDrainClass,
      (finishClosing (mkSocketDrainClass 1)
        (some { (writing (mkSocketDrainClass 0) [4, 7]).2.1 with
          buffered := (writing (mkSocketDrainClass 0) [4, 7]).2.1.buffered - 5 })).peer =
        some b' ∧
      b'.pair = -1 ∧
      (finishClosing (mkSocketDrainClass 1)
        (some { (writing (mkSocketDrainClass 0) [4, 7]).2.1 with
          buffered := (writing (mkSocketDrainClass 0) [4, 7]).2.1.buffered -
            5 })).peerReadNotified = true ∧
      readWakeCondition b' ∧
      (readWake b' 5 5).1 =
        (({ (writing (mkSocketDrainClass 0) [4, 7]).2.1 with
          buffered := (writing (mkSocketDrainClass 0) [4, 7]).2.1.buffered - 5 }
            : socketDrainClass).buffer.num_readable : Int) ∧
      (readWake b' 5 5).2.1 =
        ({ (writing (mkSocketDrainClass 0) [4, 7]).2.1 with
          buffered := (writing (mkSocketDrainClass 0) [4, 7]).2.1.buffered - 5 }
            : socketDrainClass).buffer.readableList ∧
      0 ≤ (readWake b' 5 5).1) :=
  ⟨by decide,
    C6_close_wakes_blocked_reader (mkSocketDrainClass 1)
      { (writing (mkSocketDrainClass 0) [4, 7]).2.1 with
        buffered := (writing (mkSocketDrainClass 0) [4, 7]).2.1.buffered - 5 } 5 5
      (by decide) (by decide) (by decide)⟩

/-- C2 counterexample: write S = 5 bytes to an endpoint, so a drain would
block (the wait predicate buffered <= 0 is false); then a threshold read with
min = 10 registers its claim, leaving buffered = -5.  The drain wait
predicate is now satisfied and drain() returns, yet all 5 written bytes are
still unread in the buffer (num_readable = 5) and no reader has consumed a
single one of them. -/
theorem C2_counterexample :
    waitForDrainingBlocks (writing (mkSocketDrainClass 0) [1, 2, 3, 4, 5]).2.1 = true ∧
    reading (writing (mkSocketDrainClass 0) [1, 2, 3, 4, 5]).2.1 10 10 0 0 =
      ReadOutcome.blocked { (writing (mkSocketDrainClass 0) [1, 2, 3, 4, 5]).2.1 with
        buffered := -5 } ∧
    drainCondition ({ (writing (mkSocketDrainClass 0) [1, 2, 3, 4, 5]).2.1 with
      buffered := -5 } : socketDrainClass) ∧
    ({ (writing (mkSocketDrainClass 0) [1, 2, 3, 4, 5]).2.1 with
      buffered := -5 } : socketDrainClass).buffer.num_readable = 5 :=
  ⟨by decide, rfl, by decide, by decide⟩

/-- C2 (amended): drain's wait predicate is backlog <= 0, so drain() returns
only when every byte written before the call has either been consumed by the
reader or is covered by the outstanding blocked-read claim: at any reachable
endpoint state with backlog <= 0 at most claimMin readable bytes remain, and
with no claim outstanding the buffer is empty (all S bytes were consumed).
Later writes only raise the backlog, so they are never waited for once the
predicate has let the drain caller go. -/
theorem C2_amended_drain_consumed_or_claimed (e : EndpointGhost) (h : EpReach e)
    (hdrain : drainCondition e.sdc) :
    (e.sdc.buffer.num_readable : Int) ≤ e.claimMin.getD 0 ∧
      (e.claimMin = none → e.sdc.buffer.num_readable = 0) := by
  obtain ⟨hV, hNone, hSome⟩ := epReach_inv e h
  unfold drainCondition at hdrain
  constructor
  · cases hc : e.claimMin with
    | none =>
      obtain ⟨h0, heq⟩ := hNone hc
      simp only [Option.getD_none]
      omega
    | some m =>
      have := hSome m hc
      simp only [Option.getD_some]
      omega
  · intro hc
    obtain ⟨h0, heq⟩ := hNone hc
    omega

/-- Witness for C2 (amended) at the freshly created endpoint, where the drain
condition holds and the buffer is indeed empty. -/
theorem C2_amended_drain_consumed_or_claimed_witness :
    drainCondition (mkSocketDrainClass 0) ∧
    (((⟨mkSocketDrainClass 0, none⟩ : EndpointGhost).sdc.buffer.num_readable : Int) ≤
        (⟨mkSocketDrainClass 0, none⟩ : EndpointGhost).claimMin.getD 0 ∧
      ((⟨mkSocketDrainClass 0, none⟩ : EndpointGhost).claimMin = none →
        (⟨mkSocketDrainClass 0, none⟩ : EndpointGhost).sdc.buffer.num_readable = 0)) :=
  ⟨by decide,
    C2_amended_drain_consumed_or_claimed ⟨mkSocketDrainClass 0, none⟩
      (EpReach.init 0) (by decide)⟩

/-- C4 counterexample: the reachable state c4s3 (3 bytes written, a blocked
read claiming min = 10, then 7 more bytes written, reader not yet woken) has
backlog 0 >= 0 while a claim is still outstanding and the buffer holds 10
readable bytes, so "backlog >= 0 implies backlog equals the readable byte
count" fails: the sign of the backlog does not decide whether a claim is
outstanding. -/
theorem C4_counterexample :
    EpReach ⟨c4s3, some 10⟩ ∧ c4s3.buffered = 0 ∧
      c4s3.buffer.num_readable = 10 ∧
      ¬ c4s3.buffered = (c4s3.buffer.num_readable : Int) := by
  refine ⟨?_, by decide, by decide, by decide⟩
  have h1 : EpReach ⟨c4s1, none⟩ :=
    EpReach.step _ _ (EpReach.init 0) (EpStep.write _ [1, 1, 1])
  have h2 : EpReach ⟨c4s2, some 10⟩ :=
    EpReach.step _ _ h1 (EpStep.enterWait _ 10 10 0 0 c4s2 rfl rfl)
  exact EpReach.step _ _ h2 (EpStep.write _ [2, 2, 2, 2, 2, 2, 2])

/-- C4 (amended): at every reachable endpoint state, while no read claim is
outstanding the backlog is nonnegative and equals the number of readable
bytes in the ring buffer; while a claim with threshold m is outstanding the
buffer holds backlog + m readable bytes (the backlog may be >= 0 in the
window between the satisfying write and the wake-up, so the case split is by
the outstanding claim, not by the backlog's sign). -/
theorem C4_amended_backlog_invariant (e : EndpointGhost) (h : EpReach e) : EpInv e :=
  epReach_inv e h

/-- Witness for C4 (amended) at the freshly created endpoint. -/
theorem C4_amended_backlog_invariant_witness : EpInv ⟨mkSocketDrainClass 5, none⟩ :=
  C4_amended_backlog_invariant ⟨mkSocketDrainClass 5, none⟩ (EpReach.init 5)

set_option maxRecDepth 100000 in
/-- C8 counterexample: the claim carries no capacity proviso, but writes are
silently truncated when the free space runs out.  Writing one 301-byte chunk
to a freshly reserved 300-byte endpoint buffer and reading 301 bytes back
returns only 300 bytes, not the written chunk. -/
theorem C8_truncation_counterexample :
    ¬ (([List.replicate 301 9].foldl (fun c w => (c.write w).2)
        (CircBuf.reserve 300 1)).read 301).1 = [List.replicate 301 9].flatten := by
  intro h
  have hl := congrArg List.length h
  have h1 : (([List.replicate 301 9].foldl (fun c w => (c.write w).2)
      (CircBuf.reserve 300 1)).read 301).1.length = 300 := by decide
  have h2 : ([List.replicate 301 9].flatten).length = 301 := by decide
  omega
